import Mathlib

/-!
Verification of the gcpenum scan engine (`main.go`) against its
natural-language specification.

The development shallowly embeds the program:
* the pure name-generation pipeline (`generatePermutations`,
  `removeDuplicates`, the template substitution done with
  `strings.ReplaceAll`) as Lean functions on `String` / `List String`;
* the per-candidate HTTP handlers (`checkBucket`, `listObjects`) as pure
  functions from the (mocked) HTTP responses to the list of lines the
  candidate sends on the shared output channel;
* the `main` setup sequence as a pure function from an environment
  (flag values, file-system answers) to the ordered list of user-visible
  events it produces;
* the concurrent scan loop (goroutine per candidate, counting semaphore
  `sem`, shared output channel drained by one consumer) as a small-step
  transition relation `ScanStep` on `ScanState`, whose traces are exactly
  the interleavings of the per-candidate emission sequences that the
  semaphore discipline allows.
-/

/-! ## String replacement (`strings.ReplaceAll`)

Go's `strings.ReplaceAll(s, old, new)` replaces the leftmost
non-overlapping occurrences of `old` in `s`, never rescanning replaced
text.  `replaceAllAux` implements exactly that scan on `List Char`,
structurally recursing on a fuel argument that starts at `s.length`
(each step consumes at least one character, so the fuel never runs out
for a nonempty pattern).  Both patterns used by the program
(`"{keyword}"`, `"{suffix}"`) are nonempty, so Go's special case for an
empty pattern is irrelevant here. -/
def replaceAllAux (pat rep : List Char) : Nat → List Char → List Char
  | 0, s => s
  | fuel + 1, s =>
    if !pat.isEmpty && pat.isPrefixOf s then
      rep ++ replaceAllAux pat rep fuel (s.drop pat.length)
    else
      match s with
      | [] => []
      | c :: rest => c :: replaceAllAux pat rep fuel rest

/-- Embedding of Go's `strings.ReplaceAll` for nonempty patterns. -/
def strReplaceAll (s pat rep : String) : String :=
  ⟨replaceAllAux pat.data rep.data s.data.length s.data⟩

/-! ## Name generation (`generatePermutations`, `removeDuplicates`) -/

/-- The six join templates hard-coded in `generatePermutations`. -/
def permutationTemplates : List String :=
  ["{keyword}-{suffix}", "{suffix}-{keyword}", "{keyword}_{suffix}",
   "{suffix}_{keyword}", "{keyword}{suffix}", "{suffix}{keyword}"]

/-- One loop body of `generatePermutations`: substitute the keyword, then
the suffix, into a template (two `strings.ReplaceAll` calls). -/
def expandTemplate (template keyword suffix : String) : String :=
  strReplaceAll (strReplaceAll template "{keyword}" keyword) "{suffix}" suffix

/-- The bucket list built by `generatePermutations` before deduplication:
the suffix loop (outer) over the template loop (inner), followed by the
four keyword-only entries appended at the end. -/
def rawCandidates (keyword : String) (suffixes : List String) : List String :=
  (suffixes.flatMap fun suffix =>
    permutationTemplates.map fun template => expandTemplate template keyword suffix)
  ++ [keyword, keyword ++ ".com", keyword ++ ".net", keyword ++ ".org"]

/-- Loop of `removeDuplicates` with its `seen` set (the Go map is modelled
by the list of keys inserted so far). -/
def removeDuplicatesAux (seen : List String) : List String → List String
  | [] => []
  | v :: rest =>
    if v ∈ seen then removeDuplicatesAux seen rest
    else v :: removeDuplicatesAux (v :: seen) rest

/-- Embedding of `removeDuplicates`. -/
def removeDuplicates (input : List String) : List String :=
  removeDuplicatesAux [] input

/-- Embedding of `generatePermutations` (the wordlist file is already read
into `suffixes`; `readLinesFromFile` is handled in the `main` model). -/
def generatePermutations (keyword : String) (suffixes : List String) : List String :=
  removeDuplicates (rawCandidates keyword suffixes)

/-- Modelled from the spec: the spec's words for deduplication, "first
occurrence wins, subsequent duplicates dropped" — keep each element and
erase its later duplicates.  Used only to be compared with the
code-derived `removeDuplicates`. -/
def keepFirsts : List String → List String
  | [] => []
  | x :: rest => x :: keepFirsts (rest.filter fun y => y ≠ x)
termination_by l => l.length
decreasing_by
  simp only [List.length_cons]
  exact Nat.lt_succ_of_le (List.length_filter_le _ _)

/-- The keyword loop of `main`: per-keyword results are appended to the
master bucket list with no cross-keyword deduplication. -/
def allBuckets (keywords suffixes : List String) : List String :=
  List.foldl (fun acc kw => acc ++ generatePermutations kw suffixes) [] keywords

/-! ## Per-candidate HTTP handlers (`checkBucket`, `listObjects`)

The network is mocked: a probe response is either a transport failure
(the `err` of `http.Head`) or a status code with a body; an object-index
response is either a transport failure or a status code with a body that
the JSON decoder either decodes into an `items` array of names or
rejects.  The JSON decoder itself is Go library code, modelled
abstractly by the `decodable` / `malformed` split. -/

inductive HttpResult where
  | failure (errText : String)
  | success (status : Nat) (body : String)
deriving DecidableEq, Repr

inductive ObjectsBody where
  | decodable (items : List String)
  | malformed (errText : String)
deriving DecidableEq, Repr

inductive ListingResult where
  | failure (errText : String)
  | success (status : Nat) (body : ObjectsBody)
deriving DecidableEq, Repr

/-- `bucketURL` as formatted in `checkBucket`. -/
def bucketURL (bucket : String) : String :=
  "https://storage.googleapis.com/" ++ bucket ++ "/"

/-- `apiURL` as formatted in `checkBucket`. -/
def metadataURL (bucket : String) : String :=
  "https://www.googleapis.com/storage/v1/b/" ++ bucket

/-- Scan for an occurrence of `pat` at any position of the list. -/
def hasOccurrence (pat : List Char) : List Char → Bool
  | [] => pat.isEmpty
  | c :: rest => pat.isPrefixOf (c :: rest) || hasOccurrence pat rest

/-- Embedding of `bytes.Contains` on the modelled response body. -/
def bytesContains (body pat : String) : Bool :=
  hasOccurrence pat.data body.data

/-- Embedding of `listObjects`: the lines it sends on the output channel,
given the mocked response of `http.Get` on the object-index endpoint. -/
def listObjects (bucket : String) (resp : ListingResult) : List String :=
  match resp with
  | ListingResult.failure e =>
      ["ERROR: Could not list objects in " ++ bucket ++ " - " ++ e]
  | ListingResult.success status body =>
      if status = 200 then
        match body with
        | ObjectsBody.malformed e =>
            ["ERROR: Could not parse object list for " ++ bucket ++ " - " ++ e]
        | ObjectsBody.decodable items =>
            ("    LISTABLE: " ++ bucket) :: items.map (fun obj => "        - " ++ obj)
      else []

/-- Embedding of `checkBucket`: the lines one candidate's goroutine sends
on the output channel, given the mocked response of `http.Head` on the
metadata endpoint and (reached only in the 200 case) the mocked
object-index response consumed by `listObjects`. -/
def checkBucket (bucket : String) (verbose : Bool)
    (probe : HttpResult) (listing : ListingResult) : List String :=
  match probe with
  | HttpResult.failure e =>
      ["ERROR: Could not connect to " ++ metadataURL bucket ++ " - " ++ e]
  | HttpResult.success status body =>
      if status = 404 then []
      else if status = 403 then
        if bytesContains body "Access denied" || bytesContains body "does not have" then []
        else ["EXISTS: " ++ bucketURL bucket]
      else if status = 200 then
        ("EXISTS: " ++ bucketURL bucket) :: listObjects bucket listing
      else if verbose then
        ["UNKNOWN RESPONSE for " ++ bucketURL bucket ++ ": " ++ toString status]
      else []

/-! ## The `main` setup sequence

`main` is embedded as a pure function from an environment to the ordered
list of user-visible events up to (and including) the start of the scan.
`ensureWordlist` (download/cache of the default wordlist) is an external
collaborator per the spec and is modelled as simply resolving to a path;
`readLinesFromFile` is modelled by `Env.readFileLines`, where `none`
stands for the unreadable-file case in which the Go function prints
`ERROR: Unable to read file` and exits; `os.Create` is modelled by
`Env.canCreateFile`. -/

structure Env where
  keywordFlag : String
  keywordListFlag : String
  wordlistFlag : String
  outFileFlag : String
  readFileLines : String → Option (List String)
  canCreateFile : String → Bool
  defaultWordlistPath : String

inductive Event where
  | message (text : String)
  | usage
  | summary (bucketCount keywordCount : Nat)
  | scanStart (buckets : List String)
deriving DecidableEq, Repr

def missingInputMsg : String :=
  "ERROR: Provide either a keyword (-n) or a keyword list file (-l)"

def readFailMsg : String :=
  "ERROR: Unable to read file"

def createFailMsg : String :=
  "ERROR: Could not create output file"

/-- The wordlist path `main` uses: the `-w` flag, or the collaborator's
default path when the flag is empty. -/
def resolvedWordlist (env : Env) : String :=
  if env.wordlistFlag = "" then env.defaultWordlistPath else env.wordlistFlag

/-- The keyword list `main` builds: read from the `-l` file when given
(`none` = unreadable, fatal), else the single `-n` keyword. -/
def resolvedKeywords (env : Env) : Option (List String) :=
  if env.keywordListFlag ≠ "" then env.readFileLines env.keywordListFlag
  else some [env.keywordFlag]

/-- The tail of `main` after the bucket list is generated: print the
summary, then try to create the output file (when `-o` was given) —
failing that prints an error and returns — and otherwise start the scan. -/
def afterGeneration (env : Env) (keywords buckets : List String) : List Event :=
  Event.summary buckets.length keywords.length ::
    (if env.outFileFlag ≠ "" && !env.canCreateFile env.outFileFlag then
      [Event.message createFailMsg]
    else [Event.scanStart buckets])

/-- Embedding of `main` up to the start of the scan: the ordered events
it produces.  When the keyword list is empty the generation loop never
runs, so the wordlist file is never read. -/
def mainSetup (env : Env) : List Event :=
  if env.keywordFlag = "" ∧ env.keywordListFlag = "" then
    [Event.message missingInputMsg, Event.usage]
  else
    match resolvedKeywords env with
    | none => [Event.message readFailMsg]
    | some keywords =>
      match keywords, env.readFileLines (resolvedWordlist env) with
      | [], _ => afterGeneration env [] []
      | _ :: _, none => [Event.message readFailMsg]
      | k :: ks, some suffixes =>
          afterGeneration env (k :: ks) (allBuckets (k :: ks) suffixes)

/-! ## The concurrent scan (`main`'s goroutine loop)

One goroutine is spawned per candidate; it sends on the capacity-`C`
semaphore channel `sem`, runs `checkBucket` (all of the candidate's
network calls and output-channel sends happen here), and receives from
`sem`.  The single consumer goroutine prints lines in the order it
receives them, so the printed stream is the order in which sends on the
output channel complete.

The model: each candidate `i` has a script (the line sequence
`checkBucket` would send for it).  A candidate is `notStarted` (not yet
past the semaphore send), `running` (holding a permit, with the lines it
has not yet sent), or `done` (past `wg.Done`, permit released).  A step
either starts a candidate (allowed only while fewer than `C` candidates
hold permits), emits the next line of a running candidate onto the
shared trace, finishes a running candidate whose lines are exhausted
(the deferred `wg.Done` and the semaphore receive are unconditional, so
finishing is always possible), or — once every candidate is done, i.e.
after `wg.Wait` returns — closes the output channel. -/

inductive CandStatus where
  | notStarted (pending : List String)
  | running (pending : List String)
  | done
deriving DecidableEq, Repr

def isRunning : CandStatus → Bool
  | CandStatus.running _ => true
  | _ => false

/-- Number of candidates currently holding a semaphore permit. -/
def activeCount (procs : List CandStatus) : Nat :=
  (procs.map fun st => if isRunning st then 1 else 0).sum

/-- Lines a candidate has not yet sent. -/
def pendingOf : CandStatus → List String
  | CandStatus.notStarted p => p
  | CandStatus.running p => p
  | CandStatus.done => []

structure ScanState where
  procs : List CandStatus
  trace : List (Nat × String)
  closed : Bool
deriving DecidableEq, Repr

/-- Start of the scan: every candidate is waiting on the semaphore,
nothing has been printed, the output channel is open. -/
def initState (scripts : List (List String)) : ScanState :=
  ⟨scripts.map CandStatus.notStarted, [], false⟩

inductive ScanStep (C : Nat) : ScanState → ScanState → Prop where
  | start (procs : List CandStatus) (tr : List (Nat × String)) (i : Nat) (p : List String)
      (hget : procs.get? i = some (CandStatus.notStarted p))
      (hsem : activeCount procs < C) :
      ScanStep C ⟨procs, tr, false⟩ ⟨procs.set i (CandStatus.running p), tr, false⟩
  | emit (procs : List CandStatus) (tr : List (Nat × String)) (i : Nat)
      (line : String) (rest : List String)
      (hget : procs.get? i = some (CandStatus.running (line :: rest))) :
      ScanStep C ⟨procs, tr, false⟩
        ⟨procs.set i (CandStatus.running rest), tr ++ [(i, line)], false⟩
  | finish (procs : List CandStatus) (tr : List (Nat × String)) (i : Nat)
      (hget : procs.get? i = some (CandStatus.running [])) :
      ScanStep C ⟨procs, tr, false⟩ ⟨procs.set i CandStatus.done, tr, false⟩
  | closeStream (procs : List CandStatus) (tr : List (Nat × String))
      (hall : ∀ st ∈ procs, st = CandStatus.done) :
      ScanStep C ⟨procs, tr, false⟩ ⟨procs, tr, true⟩

/-- States the scan can reach from its start. -/
def Reachable (C : Nat) (scripts : List (List String)) (s : ScanState) : Prop :=
  Relation.ReflTransGen (ScanStep C) (initState scripts) s

/-- The subsequence of the trace that candidate `i` produced. -/
def emittedFor (i : Nat) (tr : List (Nat × String)) : List String :=
  tr.filterMap fun x => if x.1 = i then some x.2 else none

/-- Collapse adjacent equal entries (used to state contiguity). -/
def collapseAdj : List Nat → List Nat
  | [] => []
  | [a] => [a]
  | a :: b :: rest =>
      if a = b then collapseAdj (b :: rest) else a :: collapseAdj (b :: rest)

/-- A trace is per-candidate contiguous when each candidate's lines form
one uninterrupted block. -/
def ContiguousTrace (tr : List (Nat × String)) : Prop :=
  (collapseAdj (tr.map Prod.fst)).Nodup

/-- Remaining work of one candidate: two bookkeeping steps (semaphore
acquire and release) plus one step per line still to send. -/
def statusWeight : CandStatus → Nat
  | CandStatus.notStarted p => p.length + 2
  | CandStatus.running p => p.length + 1
  | CandStatus.done => 0

/-- Termination measure of a scan state. -/
def scanMeasure (s : ScanState) : Nat :=
  (s.procs.map statusWeight).sum + (if s.closed then 0 else 1)

/-! ## Concrete data used by counterexamples and witnesses -/

/-- Lines of a first listable candidate, as `checkBucket` produces them. -/
def scriptA : List String :=
  checkBucket "alpha" false (HttpResult.success 200 "")
    (ListingResult.success 200 (ObjectsBody.decodable []))

/-- Lines of a second listable candidate. -/
def scriptB : List String :=
  checkBucket "beta" false (HttpResult.success 200 "")
    (ListingResult.success 200 (ObjectsBody.decodable []))

def scriptsAB : List (List String) := [scriptA, scriptB]

/-- A state the scan with limit 2 can reach in which the two candidates'
sends on the shared channel have interleaved. -/
def sBad : ScanState :=
  ⟨[CandStatus.running [], CandStatus.running ["    LISTABLE: beta"]],
   [(0, "EXISTS: https://storage.googleapis.com/alpha/"),
    (1, "EXISTS: https://storage.googleapis.com/beta/"),
    (0, "    LISTABLE: alpha")],
   false⟩

/-- Environment in which setup succeeds until the output file: a keyword
is given, all files read fine, but the `-o` file cannot be created. -/
def envCex : Env :=
  ⟨"acme", "", "wl.txt", "out.txt", fun _ => some ["dev"], fun _ => false, "words.txt"⟩

/-- Lines of a candidate whose probe fails at transport level. -/
def scriptErr : List String :=
  checkBucket "alpha" false (HttpResult.failure "dial tcp: i/o timeout")
    (ListingResult.failure "unused")

def scriptsErr : List (List String) := [scriptErr]

/-! ## String helper lemmas -/

theorem ne_self_append {k t : String} (ht : t ≠ "") : k ≠ k ++ t := by
  intro h
  apply ht
  have hd := congrArg String.data h
  simp only [String.data_append] at hd
  have hlen := congrArg List.length hd
  simp only [List.length_append] at hlen
  have hnil : t.data = [] := List.eq_nil_of_length_eq_zero (by omega)
  exact String.ext (by simp [hnil])

theorem string_append_cancel {k s t : String} (h : k ++ s = k ++ t) : s = t := by
  have hd := congrArg String.data h
  simp only [String.data_append] at hd
  exact String.ext (List.append_cancel_left hd)

theorem head_char_append (p x : String) (c : Char) (hc : p.data.head? = some c) :
    ((p ++ x).data).head? = some c := by
  rw [String.data_append]
  cases hp : p.data with
  | nil => rw [hp] at hc; cases hc
  | cons a rest =>
    rw [hp] at hc
    simp only [List.head?_cons, Option.some.injEq] at hc
    simp [hc]

theorem ne_of_head_char (a b : String) (ca cb : Char) (ha : a.data.head? = some ca)
    (hb : b.data.head? = some cb) (hne : ca ≠ cb) : a ≠ b := by
  intro h
  rw [h, hb] at ha
  exact hne (Option.some.inj ha).symm

/-! ## Lemmas about `removeDuplicates` -/

theorem mem_removeDuplicatesAux (seen l : List String) (x : String) :
    x ∈ removeDuplicatesAux seen l ↔ x ∈ l ∧ x ∉ seen := by
  induction l generalizing seen with
  | nil => simp [removeDuplicatesAux]
  | cons v rest ih =>
    by_cases hv : v ∈ seen
    · rw [removeDuplicatesAux, if_pos hv, ih]
      constructor
      · rintro ⟨h1, h2⟩
        exact ⟨List.mem_cons_of_mem _ h1, h2⟩
      · rintro ⟨h1, h2⟩
        rcases List.mem_cons.mp h1 with h | h
        · exact absurd (h ▸ hv) h2
        · exact ⟨h, h2⟩
    · rw [removeDuplicatesAux, if_neg hv]
      simp only [List.mem_cons, ih, List.mem_cons, not_or]
      constructor
      · rintro (h | ⟨h1, h2⟩)
        · exact ⟨Or.inl h, h ▸ hv⟩
        · exact ⟨Or.inr h1, h2.2⟩
      · rintro ⟨h1 | h1, h2⟩
        · exact Or.inl h1
        · by_cases hxv : x = v
          · exact Or.inl hxv
          · exact Or.inr ⟨h1, hxv, h2⟩

theorem nodup_removeDuplicatesAux (seen l : List String) :
    (removeDuplicatesAux seen l).Nodup := by
  induction l generalizing seen with
  | nil => simp [removeDuplicatesAux]
  | cons v rest ih =>
    rw [removeDuplicatesAux]
    split
    · exact ih seen
    · refine List.nodup_cons.mpr ⟨?_, ih (v :: seen)⟩
      intro hv
      exact ((mem_removeDuplicatesAux _ _ _).mp hv).2 (List.mem_cons_self _ _)

theorem sublist_removeDuplicatesAux (seen l : List String) :
    List.Sublist (removeDuplicatesAux seen l) l := by
  induction l generalizing seen with
  | nil => simp [removeDuplicatesAux]
  | cons v rest ih =>
    rw [removeDuplicatesAux]
    split
    · exact (ih seen).trans (List.sublist_cons_self _ _)
    · exact List.Sublist.cons₂ _ (ih (v :: seen))

theorem removeDuplicatesAux_eq_keepFirsts (seen l : List String) :
    removeDuplicatesAux seen l = keepFirsts (l.filter fun x => decide (x ∉ seen)) := by
  induction l generalizing seen with
  | nil => simp [removeDuplicatesAux, keepFirsts]
  | cons v rest ih =>
    by_cases hv : v ∈ seen
    · rw [removeDuplicatesAux, if_pos hv, List.filter_cons]
      have hd : decide (v ∉ seen) = false := by simp [hv]
      rw [hd]
      simp only [Bool.false_eq_true, if_false]
      exact ih seen
    · rw [removeDuplicatesAux, if_neg hv, List.filter_cons]
      have hd : decide (v ∉ seen) = true := by simp [hv]
      rw [hd]
      simp only [if_true]
      rw [keepFirsts]
      congr 1
      rw [ih (v :: seen), List.filter_filter]
      congr 1
      apply List.filter_congr
      intro x _
      by_cases h1 : x = v <;> by_cases h2 : x ∈ seen <;>
        simp [h1, h2, List.mem_cons]

/-! ## Lemmas about the scan transition system -/

theorem lt_length_of_getq {α : Type} {l : List α} {i : Nat} {a : α}
    (h : l.get? i = some a) : i < l.length := by
  by_contra hge
  rw [List.get?_eq_none.mpr (Nat.le_of_not_lt hge)] at h
  cases h

theorem sum_map_set {α : Type} (f : α → Nat) (l : List α) (i : Nat) (a b : α)
    (h : l.get? i = some b) :
    ((l.set i a).map f).sum + f b = (l.map f).sum + f a := by
  induction l generalizing i with
  | nil => cases h
  | cons x tl ih =>
    cases i with
    | zero =>
      have hx : x = b := by
        have : some x = some b := h
        exact Option.some.inj this
      subst hx
      simp only [List.set, List.map_cons, List.sum_cons]
      omega
    | succ n =>
      have hn : tl.get? n = some b := h
      have := ih n hn
      simp only [List.set, List.map_cons, List.sum_cons]
      omega

theorem emittedFor_append (i j : Nat) (line : String) (tr : List (Nat × String)) :
    emittedFor i (tr ++ [(j, line)]) =
      emittedFor i tr ++ (if j = i then [line] else []) := by
  simp only [emittedFor, List.filterMap_append]
  congr 1
  by_cases h : j = i <;> simp [h]

/-- Main inductive invariant of the scan: for every candidate, what it
has emitted so far followed by what it still has pending is exactly its
script, and the process list stays aligned with the script list. -/
theorem reachable_tracks (C : Nat) (scripts : List (List String)) (s : ScanState)
    (hr : Reachable C scripts s) :
    s.procs.length = scripts.length ∧
    ∀ i st, s.procs.get? i = some st →
      ∃ sc, scripts.get? i = some sc ∧ emittedFor i s.trace ++ pendingOf st = sc := by
  induction hr with
  | refl =>
    constructor
    · simp [initState]
    · intro i st hst
      simp only [initState] at hst
      rw [List.get?_map] at hst
      cases hsc : scripts.get? i with
      | none => rw [hsc] at hst; cases hst
      | some sc =>
        rw [hsc] at hst
        have hst2 : CandStatus.notStarted sc = st := Option.some.inj hst
        refine ⟨sc, rfl, ?_⟩
        rw [← hst2]
        simp [emittedFor, pendingOf, initState]
  | tail _ hstep ih =>
    cases hstep with
    | start procs tr i p hget hsem =>
      refine ⟨by simpa [List.length_set] using ih.1, ?_⟩
      intro j st hst
      by_cases hji : j = i
      · subst hji
        rw [List.get?_set_eq_of_lt _ (lt_length_of_getq hget)] at hst
        obtain ⟨sc, hsc, he⟩ := ih.2 j _ hget
        exact ⟨sc, hsc, by rw [← Option.some.inj hst]; exact he⟩
      · rw [List.get?_set_ne _ _ (fun h => hji h.symm)] at hst
        exact ih.2 j st hst
    | emit procs tr i line rest hget =>
      refine ⟨by simpa [List.length_set] using ih.1, ?_⟩
      intro j st hst
      by_cases hji : j = i
      · subst hji
        rw [List.get?_set_eq_of_lt _ (lt_length_of_getq hget)] at hst
        obtain ⟨sc, hsc, he⟩ := ih.2 j _ hget
        refine ⟨sc, hsc, ?_⟩
        rw [← Option.some.inj hst]
        rw [emittedFor_append, if_pos rfl]
        simp only [pendingOf] at he ⊢
        rw [List.append_assoc]
        simpa using he
      · rw [List.get?_set_ne _ _ (fun h => hji h.symm)] at hst
        obtain ⟨sc, hsc, he⟩ := ih.2 j st hst
        refine ⟨sc, hsc, ?_⟩
        rw [emittedFor_append, if_neg (fun h => hji h.symm)]
        simpa using he
    | finish procs tr i hget =>
      refine ⟨by simpa [List.length_set] using ih.1, ?_⟩
      intro j st hst
      by_cases hji : j = i
      · subst hji
        rw [List.get?_set_eq_of_lt _ (lt_length_of_getq hget)] at hst
        obtain ⟨sc, hsc, he⟩ := ih.2 j _ hget
        refine ⟨sc, hsc, ?_⟩
        rw [← Option.some.inj hst]
        simpa [pendingOf] using he
      · rw [List.get?_set_ne _ _ (fun h => hji h.symm)] at hst
        exact ih.2 j st hst
    | closeStream procs tr hall =>
      exact ih

theorem initState_active_zero (scripts : List (List String)) :
    activeCount (initState scripts).procs = 0 := by
  simp only [initState, activeCount]
  induction scripts with
  | nil => simp
  | cons s rest ih => simpa [isRunning] using ih

/-- Semaphore invariant: never more than `C` candidates hold a permit. -/
theorem reachable_active_le (C : Nat) (scripts : List (List String)) (s : ScanState)
    (hr : Reachable C scripts s) : activeCount s.procs ≤ C := by
  induction hr with
  | refl =>
    rw [initState_active_zero]
    exact Nat.zero_le C
  | tail _ hstep ih =>
    cases hstep with
    | start procs tr i p hget hsem =>
      have hs : activeCount (procs.set i (CandStatus.running p)) + 0
          = activeCount procs + 1 :=
        sum_map_set (fun st => if isRunning st then 1 else 0) procs i
          (CandStatus.running p) (CandStatus.notStarted p) hget
      have ih2 : activeCount procs ≤ C := ih
      show activeCount (procs.set i (CandStatus.running p)) ≤ C
      omega
    | emit procs tr i line rest hget =>
      have hs : activeCount (procs.set i (CandStatus.running rest)) + 1
          = activeCount procs + 1 :=
        sum_map_set (fun st => if isRunning st then 1 else 0) procs i
          (CandStatus.running rest) (CandStatus.running (line :: rest)) hget
      have ih2 : activeCount procs ≤ C := ih
      show activeCount (procs.set i (CandStatus.running rest)) ≤ C
      omega
    | finish procs tr i hget =>
      have hs : activeCount (procs.set i CandStatus.done) + 1
          = activeCount procs + 0 :=
        sum_map_set (fun st => if isRunning st then 1 else 0) procs i
          CandStatus.done (CandStatus.running []) hget
      have ih2 : activeCount procs ≤ C := ih
      show activeCount (procs.set i CandStatus.done) ≤ C
      omega
    | closeStream procs tr hall =>
      exact ih

/-- The output channel is closed only once every candidate is done. -/
theorem reachable_closed_done (C : Nat) (scripts : List (List String)) (s : ScanState)
    (hr : Reachable C scripts s) (hclosed : s.closed = true) :
    ∀ st ∈ s.procs, st = CandStatus.done := by
  induction hr with
  | refl => cases hclosed
  | tail _ hstep ih =>
    cases hstep with
    | start procs tr i p hget hsem => cases hclosed
    | emit procs tr i line rest hget => cases hclosed
    | finish procs tr i hget => cases hclosed
    | closeStream procs tr hall => exact hall

/-- Once the channel is closed, every candidate's full script is in the
trace. -/
theorem closed_trace_complete (C : Nat) (scripts : List (List String)) (s : ScanState)
    (hr : Reachable C scripts s) (hclosed : s.closed = true) :
    ∀ i sc, scripts.get? i = some sc → emittedFor i s.trace = sc := by
  intro i sc hsc
  obtain ⟨hlen, htr⟩ := reachable_tracks C scripts s hr
  have hi : i < s.procs.length := by rw [hlen]; exact lt_length_of_getq hsc
  have hget := List.get?_eq_get hi
  obtain ⟨sc2, hsc2, he⟩ := htr i _ hget
  have hdone := reachable_closed_done C scripts s hr hclosed _ (List.get_mem s.procs i hi)
  rw [hdone] at he
  simp only [pendingOf, List.append_nil] at he
  rw [hsc] at hsc2
  rw [he]
  exact (Option.some.inj hsc2).symm

/-- Every step strictly decreases the scan measure: the scan terminates. -/
theorem step_measure_decreases (C : Nat) (s t : ScanState) (hstep : ScanStep C s t) :
    scanMeasure t < scanMeasure s := by
  cases hstep with
  | start procs tr i p hget hsem =>
    have hs : ((procs.set i (CandStatus.running p)).map statusWeight).sum + (p.length + 2)
        = (procs.map statusWeight).sum + (p.length + 1) :=
      sum_map_set statusWeight procs i
        (CandStatus.running p) (CandStatus.notStarted p) hget
    simp only [List.map_set] at hs
    simp [scanMeasure]
    omega
  | emit procs tr i line rest hget =>
    have hs : ((procs.set i (CandStatus.running rest)).map statusWeight).sum
          + ((line :: rest).length + 1)
        = (procs.map statusWeight).sum + (rest.length + 1) :=
      sum_map_set statusWeight procs i
        (CandStatus.running rest) (CandStatus.running (line :: rest)) hget
    simp only [List.length_cons, List.map_set] at hs
    simp [scanMeasure]
    omega
  | finish procs tr i hget =>
    have hs : ((procs.set i CandStatus.done).map statusWeight).sum + 1
        = (procs.map statusWeight).sum + 0 :=
      sum_map_set statusWeight procs i
        CandStatus.done (CandStatus.running []) hget
    simp only [List.map_set] at hs
    simp [scanMeasure]
    omega
  | closeStream procs tr hall =>
    simp [scanMeasure]

/-- Progress: while the channel is open, some step is always enabled (the
scan never deadlocks, permits are never leaked). -/
theorem scan_progress (C : Nat) (scripts : List (List String)) (s : ScanState)
    (hC : 1 ≤ C) (hr : Reachable C scripts s) (hopen : s.closed = false) :
    ∃ t, ScanStep C s t := by
  obtain ⟨procs, tr, closed⟩ := s
  simp only at hopen
  subst hopen
  by_cases hall : ∀ st ∈ procs, st = CandStatus.done
  · exact ⟨_, ScanStep.closeStream procs tr hall⟩
  · push_neg at hall
    obtain ⟨st, hmem, hne⟩ := hall
    by_cases hrun : ∃ i p, procs.get? i = some (CandStatus.running p)
    · obtain ⟨i, p, hget⟩ := hrun
      cases p with
      | nil => exact ⟨_, ScanStep.finish procs tr i hget⟩
      | cons line rest => exact ⟨_, ScanStep.emit procs tr i line rest hget⟩
    · have hzero : activeCount procs = 0 := by
        apply List.sum_eq_zero
        intro n hn
        simp only [List.mem_map] at hn
        obtain ⟨st2, hst2, hEq⟩ := hn
        cases st2 with
        | running p =>
          obtain ⟨j, hj⟩ := List.mem_iff_get?.mp hst2
          exact absurd ⟨j, p, hj⟩ hrun
        | notStarted p => simpa [isRunning] using hEq.symm
        | done => simpa [isRunning] using hEq.symm
      obtain ⟨i, hget⟩ := List.mem_iff_get?.mp hmem
      cases st with
      | done => exact absurd rfl hne
      | running p => exact absurd ⟨i, p, hget⟩ hrun
      | notStarted p =>
        exact ⟨_, ScanStep.start procs tr i p hget (by omega)⟩

/-- Inversion: the trace grows only when a running candidate (one holding
a permit) sends its next pending line. -/
theorem step_trace_extend (C : Nat) (s t : ScanState) (hstep : ScanStep C s t)
    (hne : t.trace ≠ s.trace) :
    ∃ i line rest, t.trace = s.trace ++ [(i, line)] ∧
      s.procs.get? i = some (CandStatus.running (line :: rest)) := by
  cases hstep with
  | start procs tr i p hget hsem => exact absurd rfl hne
  | finish procs tr i hget => exact absurd rfl hne
  | closeStream procs tr hall => exact absurd rfl hne
  | emit procs tr i line rest hget => exact ⟨i, line, rest, rfl, hget⟩

/-! ## Helper equalities for the error-line format -/

theorem errTag_listFail (bucket e : String) :
    "ERROR: Could not list objects in " ++ bucket ++ " - " ++ e
      = "ERROR" ++ (": Could not list objects in " ++ bucket ++ " - " ++ e) := by
  apply String.ext
  have hlit : ("ERROR: Could not list objects in " : String).data
      = ("ERROR" : String).data ++ (": Could not list objects in " : String).data := by
    decide
  simp [hlit]

theorem errTag_parseFail (bucket e : String) :
    "ERROR: Could not parse object list for " ++ bucket ++ " - " ++ e
      = "ERROR" ++ (": Could not parse object list for " ++ bucket ++ " - " ++ e) := by
  apply String.ext
  have hlit : ("ERROR: Could not parse object list for " : String).data
      = ("ERROR" : String).data ++ (": Could not parse object list for " : String).data := by
    decide
  simp [hlit]

/-! ## Claim theorems -/

/-- Claim C1: on a 403 probe response, `checkBucket` inspects the body;
with an access-denial phrase ("Access denied" or "does not have") it
emits nothing, otherwise it emits exactly one EXISTS line; in either
case the object-listing response is never consulted (no listing is
attempted). -/
theorem claim_c1 (bucket : String) (verbose : Bool) (body : String)
    (listing listing2 : ListingResult) :
    ((bytesContains body "Access denied" || bytesContains body "does not have") = true →
        checkBucket bucket verbose (HttpResult.success 403 body) listing = [])
  ∧ ((bytesContains body "Access denied" || bytesContains body "does not have") = false →
        checkBucket bucket verbose (HttpResult.success 403 body) listing
          = ["EXISTS: " ++ bucketURL bucket])
  ∧ checkBucket bucket verbose (HttpResult.success 403 body) listing
      = checkBucket bucket verbose (HttpResult.success 403 body) listing2 := by
  refine ⟨fun h => ?_, fun h => ?_, rfl⟩
  · simp [checkBucket, h]
  · simp [checkBucket, h]

/-- Witness for C1 at a concrete denial body and a concrete other body. -/
theorem claim_c1_wit :
    checkBucket "acme" false (HttpResult.success 403 "Access denied to bucket")
        (ListingResult.success 200 (ObjectsBody.decodable ["x"])) = []
  ∧ checkBucket "acme" false (HttpResult.success 403 "unrelated text")
        (ListingResult.success 200 (ObjectsBody.decodable ["x"]))
      = ["EXISTS: " ++ bucketURL "acme"] :=
  ⟨(claim_c1 "acme" false "Access denied to bucket"
      (ListingResult.success 200 (ObjectsBody.decodable ["x"]))
      (ListingResult.failure "other")).1 (by decide),
   (claim_c1 "acme" false "unrelated text"
      (ListingResult.success 200 (ObjectsBody.decodable ["x"]))
      (ListingResult.failure "other")).2.1 (by decide)⟩

/-- Claim C8: a 200 probe with a two-item object index produces exactly
an EXISTS line, then a LISTABLE line, then the two object lines, in that
relative order. -/
theorem claim_c8 (bucket : String) (verbose : Bool) (body : String) :
    checkBucket bucket verbose (HttpResult.success 200 body)
      (ListingResult.success 200 (ObjectsBody.decodable ["a.txt", "b.txt"]))
      = ["EXISTS: " ++ bucketURL bucket, "    LISTABLE: " ++ bucket,
         "        - a.txt", "        - b.txt"] := rfl

/-- Claim C10: when the listing request fails at transport level or the
body fails to decode, `listObjects` emits exactly one line, that line
carries the ERROR prefix, it is neither a LISTABLE line nor an object
line, and the failure is local: in any scan containing the failing
candidate, every other candidate still has its complete script in the
trace by the time the output channel closes. -/
theorem claim_c10 (bucket : String) (r : ListingResult)
    (h : (∃ e, r = ListingResult.failure e) ∨
         ∃ e, r = ListingResult.success 200 (ObjectsBody.malformed e)) :
    (∃ rest, listObjects bucket r = ["ERROR" ++ rest]
       ∧ ∀ l ∈ listObjects bucket r,
           (∀ b2 : String, l ≠ "    LISTABLE: " ++ b2)
           ∧ ∀ nm : String, l ≠ "        - " ++ nm)
  ∧ ∀ (others : List (List String)) (C : Nat) (s : ScanState),
      1 ≤ C → Reachable C (listObjects bucket r :: others) s → s.closed = true →
      ∀ j sc, others.get? j = some sc → emittedFor (j + 1) s.trace = sc := by
  constructor
  · rcases h with ⟨e, he⟩ | ⟨e, he⟩ <;> subst he
    · refine ⟨": Could not list objects in " ++ bucket ++ " - " ++ e,
        by rw [listObjects, errTag_listFail], ?_⟩
      intro l hl
      rw [listObjects, List.mem_singleton] at hl
      subst hl
      have h0 : ("ERROR: Could not list objects in " : String).data.head? = some 'E' := by
        decide
      have h1 := head_char_append _ bucket _ h0
      have h2 := head_char_append _ " - " _ h1
      have h3 := head_char_append _ e _ h2
      constructor
      · intro b2
        exact ne_of_head_char _ _ 'E' ' ' h3
          (head_char_append "    LISTABLE: " b2 ' ' (by decide)) (by decide)
      · intro nm
        exact ne_of_head_char _ _ 'E' ' ' h3
          (head_char_append "        - " nm ' ' (by decide)) (by decide)
    · have hform : listObjects bucket (ListingResult.success 200 (ObjectsBody.malformed e))
          = ["ERROR: Could not parse object list for " ++ bucket ++ " - " ++ e] := rfl
      refine ⟨": Could not parse object list for " ++ bucket ++ " - " ++ e,
        by rw [hform, errTag_parseFail], ?_⟩
      intro l hl
      rw [hform, List.mem_singleton] at hl
      subst hl
      have h0 : ("ERROR: Could not parse object list for " : String).data.head? = some 'E' := by
        decide
      have h1 := head_char_append _ bucket _ h0
      have h2 := head_char_append _ " - " _ h1
      have h3 := head_char_append _ e _ h2
      constructor
      · intro b2
        exact ne_of_head_char _ _ 'E' ' ' h3
          (head_char_append "    LISTABLE: " b2 ' ' (by decide)) (by decide)
      · intro nm
        exact ne_of_head_char _ _ 'E' ' ' h3
          (head_char_append "        - " nm ' ' (by decide)) (by decide)
  · intro others C s hC hr hclosed j sc hsc
    exact closed_trace_complete C (listObjects bucket r :: others) s hr hclosed (j + 1) sc hsc

/-- Witness for C10 at a concrete transport failure. -/
theorem claim_c10_wit : ∃ rest,
    listObjects "bkt" (ListingResult.failure "connection refused") = ["ERROR" ++ rest] := by
  obtain ⟨⟨rest, h1, _⟩, _⟩ := claim_c10 "bkt" (ListingResult.failure "connection refused")
    (Or.inl ⟨"connection refused", rfl⟩)
  exact ⟨rest, h1⟩

/-- Claim C5: `generatePermutations` has no duplicates, realises the
spec's first-occurrence-wins deduplication of the raw candidate list,
keeps exactly the raw list's members, and every entry is a template
expansion of the keyword over some suffix or one of the four
keyword-only forms. -/
theorem claim_c5 (k : String) (S : List String) :
    (generatePermutations k S).Nodup
  ∧ generatePermutations k S = keepFirsts (rawCandidates k S)
  ∧ (∀ x, x ∈ generatePermutations k S ↔ x ∈ rawCandidates k S)
  ∧ ∀ x ∈ generatePermutations k S,
      (∃ template ∈ permutationTemplates, ∃ suffix ∈ S,
          x = expandTemplate template k suffix)
      ∨ x = k ∨ x = k ++ ".com" ∨ x = k ++ ".net" ∨ x = k ++ ".org" := by
  have hmem : ∀ x, x ∈ generatePermutations k S ↔ x ∈ rawCandidates k S := by
    intro x
    rw [generatePermutations, removeDuplicates, mem_removeDuplicatesAux]
    simp
  refine ⟨nodup_removeDuplicatesAux _ _, ?_, hmem, ?_⟩
  · rw [generatePermutations, removeDuplicates, removeDuplicatesAux_eq_keepFirsts]
    congr 1
    apply List.filter_eq_self.mpr
    intro a _
    simp
  · intro x hx
    have hxr := (hmem x).mp hx
    rw [rawCandidates] at hxr
    rcases List.mem_append.mp hxr with h | h
    · left
      obtain ⟨suffix, hs, hx2⟩ := List.mem_flatMap.mp h
      obtain ⟨template, ht, hx3⟩ := List.mem_map.mp hx2
      exact ⟨template, ht, suffix, hs, hx3.symm⟩
    · right
      simpa using h

/-- Witness for C5: the entry `acme-dev` of `generate("acme", ["dev"])`
is a template expansion. -/
theorem claim_c5_wit :
    (∃ template ∈ permutationTemplates, ∃ suffix ∈ ["dev"],
        "acme-dev" = expandTemplate template "acme" suffix)
    ∨ "acme-dev" = "acme" ∨ "acme-dev" = "acme" ++ ".com"
    ∨ "acme-dev" = "acme" ++ ".net" ∨ "acme-dev" = "acme" ++ ".org" :=
  (claim_c5 "acme" ["dev"]).2.2.2 "acme-dev" (by decide)

/-- Claim C6: with an empty suffix list, generation returns exactly the
keyword and its three TLD variants, in that order. -/
theorem claim_c6 (k : String) (hk : k ≠ "") :
    generatePermutations k [] = [k, k ++ ".com", k ++ ".net", k ++ ".org"] := by
  have hc : k ≠ k ++ ".com" := ne_self_append (by decide)
  have hn : k ≠ k ++ ".net" := ne_self_append (by decide)
  have ho : k ≠ k ++ ".org" := ne_self_append (by decide)
  have hcn : k ++ ".com" ≠ k ++ ".net" := fun h =>
    absurd (string_append_cancel h) (by decide)
  have hco : k ++ ".com" ≠ k ++ ".org" := fun h =>
    absurd (string_append_cancel h) (by decide)
  have hno : k ++ ".net" ≠ k ++ ".org" := fun h =>
    absurd (string_append_cancel h) (by decide)
  show removeDuplicatesAux [] [k, k ++ ".com", k ++ ".net", k ++ ".org"]
      = [k, k ++ ".com", k ++ ".net", k ++ ".org"]
  have m1 : k ∉ ([] : List String) := List.not_mem_nil k
  have m2 : (k ++ ".com") ∉ [k] := by
    simp only [List.mem_singleton]
    exact Ne.symm hc
  have m3 : (k ++ ".net") ∉ [k ++ ".com", k] := by
    simp only [List.mem_cons, not_or]
    exact ⟨Ne.symm hcn, Ne.symm hn, List.not_mem_nil _⟩
  have m4 : (k ++ ".org") ∉ [k ++ ".net", k ++ ".com", k] := by
    simp only [List.mem_cons, not_or]
    exact ⟨Ne.symm hno, Ne.symm hco, Ne.symm ho, List.not_mem_nil _⟩
  rw [removeDuplicatesAux, if_neg m1, removeDuplicatesAux, if_neg m2,
      removeDuplicatesAux, if_neg m3, removeDuplicatesAux, if_neg m4,
      removeDuplicatesAux]

/-- Witness for C6 at the keyword `acme`. -/
theorem claim_c6_wit :
    generatePermutations "acme" [] = ["acme", "acme.com", "acme.net", "acme.org"] :=
  claim_c6 "acme" (by decide)

theorem foldl_append_eq (g : String → List String) (ks acc : List String) :
    List.foldl (fun a kw => a ++ g kw) acc ks = acc ++ (ks.map g).flatten := by
  induction ks generalizing acc with
  | nil => simp
  | cons k rest ih =>
    simp only [List.foldl_cons, List.map_cons, List.flatten_cons]
    rw [ih, List.append_assoc]

/-- Claim C7 (amended): the master candidate list is the plain
concatenation of the per-keyword generated lists — per-keyword output is
deduplicated independently and cross-keyword duplicates are kept; the
per-keyword candidate sets of distinct keywords are however NOT always
disjoint (see the counterexample). -/
theorem claim_c7 (keywords suffixes : List String) :
    allBuckets keywords suffixes
      = (keywords.map fun kw => generatePermutations kw suffixes).flatten := by
  rw [allBuckets, foldl_append_eq]
  simp

/-- Counterexample to C7 as stated: the distinct keywords `a` and
`a.com` both generate the candidate `a.com`, so their candidate sets
intersect, and the shared entry appears twice in the master list. -/
theorem claim_c7_cex :
    "a.com" ∈ generatePermutations "a" []
  ∧ "a.com" ∈ generatePermutations "a.com" []
  ∧ ("a" : String) ≠ "a.com"
  ∧ List.count "a.com" (allBuckets ["a", "a.com"] []) = 2 :=
  ⟨by decide, by decide, by decide, by decide⟩

/-- Claim C9 (amended): every fatal setup error prints a message and
stops before any scanning begins; the missing-input and unreadable-file
errors occur before the "Generated N bucket names" summary, but the
uncreatable-output-file error is reported just after the summary has
already been printed (still before any scanning). -/
theorem claim_c9 (env : Env) :
    (env.keywordFlag = "" ∧ env.keywordListFlag = "" →
        mainSetup env = [Event.message missingInputMsg, Event.usage])
  ∧ (¬(env.keywordFlag = "" ∧ env.keywordListFlag = "") →
        resolvedKeywords env = none →
        mainSetup env = [Event.message readFailMsg])
  ∧ (∀ k ks, ¬(env.keywordFlag = "" ∧ env.keywordListFlag = "") →
        resolvedKeywords env = some (k :: ks) →
        env.readFileLines (resolvedWordlist env) = none →
        mainSetup env = [Event.message readFailMsg])
  ∧ ∀ keywords, ¬(env.keywordFlag = "" ∧ env.keywordListFlag = "") →
      resolvedKeywords env = some keywords →
      (keywords = [] ∨ ∃ suffixes, env.readFileLines (resolvedWordlist env) = some suffixes) →
      env.outFileFlag ≠ "" → env.canCreateFile env.outFileFlag = false →
      ∃ n, mainSetup env = [Event.summary n keywords.length, Event.message createFailMsg]
        ∧ ∀ b, Event.scanStart b ∉ mainSetup env := by
  refine ⟨fun h => ?_, fun hmi hnone => ?_, fun k ks hmi hsome hwl => ?_,
    fun keywords hmi hsome hwl ho hc => ?_⟩
  · rw [mainSetup, if_pos h]
  · rw [mainSetup, if_neg hmi, hnone]
  · rw [mainSetup, if_neg hmi, hsome, hwl]
  · rcases keywords with _ | ⟨k, ks⟩
    · have heq : mainSetup env = [Event.summary 0 0, Event.message createFailMsg] := by
        rw [mainSetup, if_neg hmi, hsome]
        show afterGeneration env [] [] = _
        simp [afterGeneration, ho, hc]
      refine ⟨0, by simpa using heq, ?_⟩
      rw [heq]
      intro b hb
      simp at hb
    · rcases hwl with h | ⟨suffixes, hs⟩
      · cases h
      · have heq : mainSetup env
            = [Event.summary (allBuckets (k :: ks) suffixes).length (k :: ks).length,
               Event.message createFailMsg] := by
          rw [mainSetup, if_neg hmi, hsome, hs]
          show afterGeneration env (k :: ks) (allBuckets (k :: ks) suffixes) = _
          simp [afterGeneration, ho, hc]
        refine ⟨(allBuckets (k :: ks) suffixes).length, heq, ?_⟩
        rw [heq]
        intro b hb
        simp at hb

/-- Witness for C9 at the concrete environment `envCex`. -/
theorem claim_c9_wit : ∃ n, mainSetup envCex
    = [Event.summary n 1, Event.message createFailMsg]
    ∧ ∀ b, Event.scanStart b ∉ mainSetup envCex := by
  have h := (claim_c9 envCex).2.2.2 ["acme"] (by decide) rfl
    (Or.inr ⟨["dev"], rfl⟩) (by decide) rfl
  simpa using h

/-- Counterexample to C9 as stated: with an uncreatable output file the
setup is fatal (an error is printed, the scan never starts), yet the
"Generated N bucket names" summary HAS been printed before termination —
the claim says every fatal setup error terminates before the summary. -/
theorem claim_c9_cex :
    mainSetup envCex = [Event.summary 10 1, Event.message createFailMsg]
  ∧ (∃ n nk, Event.summary n nk ∈ mainSetup envCex)
  ∧ ∀ b, Event.scanStart b ∉ mainSetup envCex := by
  have heq : mainSetup envCex = [Event.summary 10 1, Event.message createFailMsg] := by
    decide
  refine ⟨heq, ⟨10, 1, by rw [heq]; exact List.mem_cons_self _ _⟩, ?_⟩
  rw [heq]
  intro b hb
  simp at hb

/-- Claim C2 (amended): in every reachable state of the scan, the lines
a candidate has put on the shared stream are, in order, a prefix of that
candidate's script — its EXISTS line precedes its LISTABLE line precedes
its object lines — but lines of distinct candidates may interleave (the
contiguity stated by the claim fails, see the counterexample). -/
theorem claim_c2 (C : Nat) (scripts : List (List String)) (s : ScanState)
    (hr : Reachable C scripts s) (i : Nat) (st : CandStatus)
    (hst : s.procs.get? i = some st) :
    ∃ sc, scripts.get? i = some sc ∧ List.IsPrefix (emittedFor i s.trace) sc := by
  obtain ⟨sc, hsc, he⟩ := (reachable_tracks C scripts s hr).2 i st hst
  exact ⟨sc, hsc, ⟨pendingOf st, he⟩⟩

/-- Witness for C2 at the start state of the two-candidate scan. -/
theorem claim_c2_wit : ∃ sc, scriptsAB.get? 0 = some sc
    ∧ List.IsPrefix (emittedFor 0 (initState scriptsAB).trace) sc :=
  claim_c2 2 scriptsAB (initState scriptsAB) Relation.ReflTransGen.refl 0
    (CandStatus.notStarted scriptA) (by decide)

/-- Counterexample to C2 as stated: with concurrency 2 the scan can
reach a state whose trace interleaves the two candidates' lines — the
EXISTS line of `beta` lands between the EXISTS and LISTABLE lines of
`alpha` — so one candidate's lines are not contiguous in the stream. -/
theorem claim_c2_cex : Reachable 2 scriptsAB sBad ∧ ¬ ContiguousTrace sBad.trace := by
  constructor
  · have h1 : ScanStep 2 (initState scriptsAB)
        ⟨[CandStatus.running scriptA, CandStatus.notStarted scriptB], [], false⟩ :=
      ScanStep.start [CandStatus.notStarted scriptA, CandStatus.notStarted scriptB] [] 0
        scriptA (by decide) (by decide)
    have h2 : ScanStep 2
        ⟨[CandStatus.running scriptA, CandStatus.notStarted scriptB], [], false⟩
        ⟨[CandStatus.running scriptA, CandStatus.running scriptB], [], false⟩ :=
      ScanStep.start [CandStatus.running scriptA, CandStatus.notStarted scriptB] [] 1
        scriptB (by decide) (by decide)
    have h3 : ScanStep 2
        ⟨[CandStatus.running scriptA, CandStatus.running scriptB], [], false⟩
        ⟨[CandStatus.running ["    LISTABLE: alpha"], CandStatus.running scriptB],
          [(0, "EXISTS: https://storage.googleapis.com/alpha/")], false⟩ :=
      ScanStep.emit [CandStatus.running scriptA, CandStatus.running scriptB] [] 0
        "EXISTS: https://storage.googleapis.com/alpha/" ["    LISTABLE: alpha"] (by decide)
    have h4 : ScanStep 2
        ⟨[CandStatus.running ["    LISTABLE: alpha"], CandStatus.running scriptB],
          [(0, "EXISTS: https://storage.googleapis.com/alpha/")], false⟩
        ⟨[CandStatus.running ["    LISTABLE: alpha"],
            CandStatus.running ["    LISTABLE: beta"]],
          [(0, "EXISTS: https://storage.googleapis.com/alpha/"),
           (1, "EXISTS: https://storage.googleapis.com/beta/")], false⟩ :=
      ScanStep.emit
        [CandStatus.running ["    LISTABLE: alpha"], CandStatus.running scriptB]
        [(0, "EXISTS: https://storage.googleapis.com/alpha/")] 1
        "EXISTS: https://storage.googleapis.com/beta/" ["    LISTABLE: beta"] (by decide)
    have h5 : ScanStep 2
        ⟨[CandStatus.running ["    LISTABLE: alpha"],
            CandStatus.running ["    LISTABLE: beta"]],
          [(0, "EXISTS: https://storage.googleapis.com/alpha/"),
           (1, "EXISTS: https://storage.googleapis.com/beta/")], false⟩
        sBad :=
      ScanStep.emit
        [CandStatus.running ["    LISTABLE: alpha"], CandStatus.running ["    LISTABLE: beta"]]
        [(0, "EXISTS: https://storage.googleapis.com/alpha/"),
         (1, "EXISTS: https://storage.googleapis.com/beta/")] 0
        "    LISTABLE: alpha" [] (by decide)
    exact Relation.ReflTransGen.head h1 (Relation.ReflTransGen.head h2
      (Relation.ReflTransGen.head h3 (Relation.ReflTransGen.head h4
        (Relation.ReflTransGen.head h5 Relation.ReflTransGen.refl))))
  · exact fun h => (by decide : ¬ (collapseAdj (sBad.trace.map Prod.fst)).Nodup) h

/-- Claim C3: in every reachable state at most `C` candidates hold a
semaphore permit, and the shared trace only ever grows by a line of a
candidate that currently holds a permit (work happens only between
acquisition and release). -/
theorem claim_c3 (C : Nat) (scripts : List (List String)) (s : ScanState)
    (hC : 1 ≤ C) (hr : Reachable C scripts s) :
    activeCount s.procs ≤ C
  ∧ ∀ t, ScanStep C s t → t.trace ≠ s.trace →
      ∃ i line rest, t.trace = s.trace ++ [(i, line)] ∧
        s.procs.get? i = some (CandStatus.running (line :: rest)) :=
  ⟨reachable_active_le C scripts s hr, fun t ht hne => step_trace_extend C s t ht hne⟩

/-- Witness for C3 at the start state of the two-candidate scan. -/
theorem claim_c3_wit : activeCount (initState scriptsAB).procs ≤ 2 :=
  (claim_c3 2 scriptsAB (initState scriptsAB) (by decide) Relation.ReflTransGen.refl).1

/-- Claim C4: the scan terminates for every finite candidate set — every
step strictly decreases a natural measure, and while the channel is open
some step is always enabled (so every maximal run is finite and ends
with the channel closed), including when every probe fails with a
transport error; and the channel closes only after every candidate is
done, with every candidate's full script in the trace. -/
theorem claim_c4 (C : Nat) (scripts : List (List String)) (s : ScanState)
    (hC : 1 ≤ C) (hr : Reachable C scripts s) :
    (∀ t, ScanStep C s t → scanMeasure t < scanMeasure s)
  ∧ (s.closed = false → ∃ t, ScanStep C s t)
  ∧ (s.closed = true → (∀ st ∈ s.procs, st = CandStatus.done)
      ∧ ∀ i sc, scripts.get? i = some sc → emittedFor i s.trace = sc) :=
  ⟨fun t ht => step_measure_decreases C s t ht,
   fun hopen => scan_progress C scripts s hC hr hopen,
   fun hclosed => ⟨reachable_closed_done C scripts s hr hclosed,
     closed_trace_complete C scripts s hr hclosed⟩⟩

/-- Witness for C4 at a one-candidate scan whose only probe fails with a
transport error. -/
theorem claim_c4_wit : ∃ t, ScanStep 1 (initState scriptsErr) t :=
  (claim_c4 1 scriptsErr (initState scriptsErr) (by decide) Relation.ReflTransGen.refl).2.1 rfl
